import Mathlib

/-!
Verification of the thread-local cyclic buffer pool of librd's `rdstring.c`:
the lazy-initialization and round-robin rotation helper `rdstr_cyclic_get`,
the formatted-string producer `rd_tsprintf`, and the pool teardown
`rd_string_thread_cleanup`.

Modelling choices, all taken from the source:
* The per-thread state `struct rdstr_cyclic { int size; char **buf; int *len;
  int i; }` becomes the structure `rdstr_cyclic` below.  The two C arrays
  `buf` and `len` become two lists; `buf[j] == NULL` becomes `none`.
* A heap block returned by `malloc` is modelled as a pair of an allocation
  identifier and its current byte content (`Block`).  The ghost counter
  `next` hands out fresh identifiers, mirroring that `malloc` never returns
  a currently live pointer; it lets theorems distinguish "the slot kept its
  storage and only its bytes were overwritten" from "the storage was
  released and reallocated".
* A `vsnprintf` format-plus-arguments request is modelled as
  `Option (List Char)`: `none` is a request whose dry-run measurement
  `vsnprintf(NULL, 0, ...)` fails (returns a negative length), and `some s`
  is a request that renders exactly the byte string `s` (so the dry run
  returns `s.length`).  `vsnprintf(dst, n, ...)` truncates its output to at
  most `n - 1` bytes plus the terminator, hence the `List.take (n - 1)`.
* `RD_TSPRINTF_BUFCNT` is defined in the header `rdstring.h`, which is not
  part of the sources; following the specification it is an arbitrary
  constant `k ≥ 1`, so every definition is parametrised by `k` and every
  call of one thread passes the same `k`.
-/

/-- Modelled from the spec: a heap block handed out by the allocator, as an
allocation identifier paired with the bytes currently stored in it.  Two
blocks obtained from distinct `malloc` calls have distinct identifiers. -/
abbrev Block : Type := Nat × List Char

/-- The thread-local state `struct rdstr_cyclic` (`rdstring.c:37-42`), with
fields `size`, `buf`, `len` and `i` as in the source, plus the ghost
allocation counter `next` (see the module docstring). -/
structure rdstr_cyclic where
  size : Nat
  buf : List (Option Block)
  len : List Nat
  i : Nat
  next : Nat
deriving DecidableEq

/-- The zero-initialized thread-local `rdstr_states.tsp` a fresh thread
starts from (`rdstring.c:44-48`): `__thread` storage is zero-filled. -/
def rdstr_states_init : rdstr_cyclic :=
  { size := 0, buf := [], len := [], i := 0, next := 0 }

/-- Embedding of `rdstr_cyclic_get` (`rdstring.c:54-68`): when `size == 0`
the state is initialized (`calloc` zero-fills, so every `buf` entry is NULL
and every `len` entry is 0); otherwise the cursor advances to the next
index.  Note the source leaves `cyc->i` untouched on the initialization
path. -/
def rdstr_cyclic_get (cyc : rdstr_cyclic) (size : Nat) : rdstr_cyclic :=
  if cyc.size = 0 then
    { cyc with
        size := size
        buf := List.replicate size none
        len := List.replicate size 0 }
  else
    { cyc with i := (cyc.i + 1) % cyc.size }

/-- The replacement condition of `rd_tsprintf` (`rdstring.c:88-91`):
replace when the slot's buffer is NULL, or its recorded length is smaller
than the needed length, or it is more than four times the needed length and
larger than 64 bytes. -/
def shouldReplace (stor : Option Block) (cap need : Nat) : Bool :=
  stor.isNone || decide (cap < need) || (decide (need * 4 < cap) && decide (64 < cap))

/-- Embedding of `rd_tsprintf` (`rdstring.c:72-105`).  It acquires the next
cyclic slot, dry-runs the format to measure the output (`none` models a
negative `vsnprintf` return, in which case NULL is returned with the state
as the acquisition left it), adds one for the nul byte, replaces the slot's
storage when `shouldReplace` holds (free + `malloc(len)` of exactly the
needed length, modelled by a fresh allocation identifier), renders into the
slot's storage truncated to its capacity, and returns that storage. -/
def rd_tsprintf (st : rdstr_cyclic) (bufcnt : Nat) (format : Option (List Char)) :
    Option Block × rdstr_cyclic :=
  let cyc := rdstr_cyclic_get st bufcnt
  match format with
  | none => (none, cyc)
  | some s =>
    let need := s.length + 1
    let stor := cyc.buf.getD cyc.i none
    let cap := cyc.len.getD cyc.i 0
    if shouldReplace stor cap need then
      let blk : Block := (cyc.next, s.take (need - 1))
      (some blk,
       { cyc with
           len := cyc.len.set cyc.i need
           buf := cyc.buf.set cyc.i (some blk)
           next := cyc.next + 1 })
    else
      let blk : Block := ((stor.getD (0, [])).1, s.take (cap - 1))
      (some blk, { cyc with buf := cyc.buf.set cyc.i (some blk) })

/-- Embedding of `rd_string_thread_cleanup` (`rdstring.c:127-142`): when the
pool is initialized, every non-NULL slot buffer is freed, the `buf` and
`len` arrays themselves are freed, and `size` is reset to 0; the cursor `i`
is left untouched. -/
def rd_string_thread_cleanup (st : rdstr_cyclic) : rdstr_cyclic :=
  if st.size = 0 then st
  else { st with size := 0, buf := [], len := [] }

/-- One thread-visible operation on the pool: a `rd_tsprintf` call with some
format request, or a `rd_string_thread_cleanup` call. -/
inductive Op where
  | render (format : Option (List Char))
  | cleanup
deriving DecidableEq

/-- One operation applied to the state; `k` is the thread's
`RD_TSPRINTF_BUFCNT`. -/
def stepOp (k : Nat) (st : rdstr_cyclic) : Op → rdstr_cyclic
  | Op.render f => (rd_tsprintf st k f).2
  | Op.cleanup => rd_string_thread_cleanup st

/-- A sequence of operations applied in order. -/
def runOps (k : Nat) : rdstr_cyclic → List Op → rdstr_cyclic
  | st, [] => st
  | st, op :: ops => runOps k (stepOp k st op) ops

/-- The storage (possibly NULL) of slot `j`. -/
def storageAt (st : rdstr_cyclic) (j : Nat) : Option Block :=
  st.buf.getD j none

/-- The recorded capacity `len[j]` of slot `j`. -/
def capacityAt (st : rdstr_cyclic) (j : Nat) : Nat :=
  st.len.getD j 0

/-- The slot index a `rd_tsprintf` call starting from state `st` renders
into: the cursor right after the `rdstr_cyclic_get` acquisition. -/
def targetSlot (st : rdstr_cyclic) (k : Nat) : Nat :=
  (rdstr_cyclic_get st k).i

/-- The slot index used by the `i`-th (1-indexed) `rd_tsprintf` call of a
fresh thread whose successive format requests are `fmts`. -/
def slotOfCall (k : Nat) (fmts : List (Option (List Char))) (i : Nat) : Nat :=
  targetSlot (runOps k rdstr_states_init ((fmts.take (i - 1)).map Op.render)) k

/-- States of a `k`-slot thread pool reachable from a fresh thread. -/
def Reachable (k : Nat) (st : rdstr_cyclic) : Prop :=
  ∃ ops : List Op, st = runOps k rdstr_states_init ops

/-- The structural invariant of the pool: the two arrays have `size`
entries, an uninitialized pool has no arrays, an initialized pool has
exactly the configured `k` slots, the cursor stays below `k`, and every
live allocation identifier is below the ghost counter. -/
def PoolInv (k : Nat) (st : rdstr_cyclic) : Prop :=
  st.buf.length = st.size ∧
  st.len.length = st.size ∧
  (st.size = 0 → st.buf = [] ∧ st.len = []) ∧
  (st.size ≠ 0 → st.size = k) ∧
  st.i < k ∧
  ∀ ob ∈ st.buf, ∀ b : Block, ob = some b → b.1 < st.next

/-- A 500-byte render request. -/
def s500 : List Char := List.replicate 500 'a'

/-- A 10-byte render request. -/
def s10 : List Char := List.replicate 10 'b'

/-- Pool of one slot after rendering the 500-byte string. -/
def st500 : rdstr_cyclic := (rd_tsprintf rdstr_states_init 1 (some s500)).2

/-- Then one 10-byte render. -/
def st10a : rdstr_cyclic := (rd_tsprintf st500 1 (some s10)).2

/-- Then a second 10-byte render. -/
def st10b : rdstr_cyclic := (rd_tsprintf st10a 1 (some s10)).2

/-- Three successful renders on a 3-slot pool followed by a teardown: the
teardown leaves the (stale) cursor value 2 behind. -/
def opsC3 : List Op :=
  [Op.render (some ['a']), Op.render (some ['b']), Op.render (some ['c']), Op.cleanup]

/-- A 2-slot pool after one successful render (cursor at slot 0). -/
def stTwo : rdstr_cyclic := (rd_tsprintf rdstr_states_init 2 (some ['a'])).2

/-! ### List helper lemmas -/

theorem getD_set_self {α : Type} (l : List α) (n : Nat) (a d : α)
    (h : n < l.length) : (l.set n a).getD n d = a := by
  induction l generalizing n with
  | nil => simp at h
  | cons x xs ih =>
    cases n with
    | zero => rfl
    | succ m => exact ih m (Nat.lt_of_succ_lt_succ h)

theorem getD_set_ne {α : Type} (l : List α) (m n : Nat) (a d : α)
    (h : m ≠ n) : (l.set m a).getD n d = l.getD n d := by
  induction l generalizing m n with
  | nil => rfl
  | cons x xs ih =>
    cases m with
    | zero =>
      cases n with
      | zero => exact absurd rfl h
      | succ n' => rfl
    | succ m' =>
      cases n with
      | zero => rfl
      | succ n' => exact ih m' n' fun he => h (by rw [he])

theorem getD_replicate_default {α : Type} (n j : Nat) (a : α) :
    (List.replicate n a).getD j a = a := by
  induction n generalizing j with
  | zero => rfl
  | succ m ih =>
    cases j with
    | zero => rfl
    | succ j' => exact ih j'

theorem getD_mem {α : Type} (l : List α) (n : Nat) (d : α)
    (h : n < l.length) : l.getD n d ∈ l := by
  induction l generalizing n with
  | nil => simp at h
  | cons x xs ih =>
    cases n with
    | zero => exact List.mem_cons_self x xs
    | succ m => exact List.mem_cons_of_mem x (ih m (Nat.lt_of_succ_lt_succ h))

theorem mem_of_mem_set {α : Type} (l : List α) (n : Nat) (a x : α)
    (hx : x ∈ l.set n a) : x ∈ l ∨ x = a := by
  induction l generalizing n with
  | nil => simp at hx
  | cons y ys ih =>
    cases n with
    | zero =>
      rcases List.mem_cons.mp hx with h | h
      · exact Or.inr h
      · exact Or.inl (List.mem_cons_of_mem y h)
    | succ m =>
      rcases List.mem_cons.mp hx with h | h
      · exact Or.inl (h ▸ List.mem_cons_self y ys)
      · rcases ih m h with h' | h'
        · exact Or.inl (List.mem_cons_of_mem y h')
        · exact Or.inr h'

theorem take_of_length_le' {α : Type} (l : List α) (n : Nat)
    (h : l.length ≤ n) : l.take n = l := by
  induction l generalizing n with
  | nil => simp
  | cons x xs ih =>
    cases n with
    | zero => simp at h
    | succ m => simpa using ih m (Nat.le_of_succ_le_succ h)

/-! ### Invariant machinery -/

theorem poolInv_init (k : Nat) (hk : 0 < k) : PoolInv k rdstr_states_init := by
  refine ⟨rfl, rfl, fun _ => ⟨rfl, rfl⟩, fun h => absurd rfl h, hk, ?_⟩
  intro ob hob
  simp [rdstr_states_init] at hob

theorem rdstr_cyclic_get_inv (k : Nat) (st : rdstr_cyclic)
    (hk : 0 < k) (hInv : PoolInv k st) :
    (rdstr_cyclic_get st k).size = k ∧
    (rdstr_cyclic_get st k).buf.length = k ∧
    (rdstr_cyclic_get st k).len.length = k ∧
    (rdstr_cyclic_get st k).i < k ∧
    (rdstr_cyclic_get st k).next = st.next ∧
    (∀ ob ∈ (rdstr_cyclic_get st k).buf, ∀ b : Block, ob = some b →
      b.1 < (rdstr_cyclic_get st k).next) := by
  obtain ⟨hbl, hll, _, hsz, hi, hids⟩ := hInv
  by_cases h0 : st.size = 0
  · have hgoal : rdstr_cyclic_get st k =
        { st with size := k, buf := List.replicate k none, len := List.replicate k 0 } := by
      simp [rdstr_cyclic_get, h0]
    rw [hgoal]
    refine ⟨rfl, by simp, by simp, hi, rfl, ?_⟩
    intro ob hob b hb
    rw [List.eq_of_mem_replicate hob] at hb
    exact absurd hb (by simp)
  · have hk' : st.size = k := hsz h0
    have hgoal : rdstr_cyclic_get st k = { st with i := (st.i + 1) % st.size } := by
      simp [rdstr_cyclic_get, h0]
    rw [hgoal]
    refine ⟨hk', hk' ▸ hbl, hk' ▸ hll, ?_, rfl, hids⟩
    show (st.i + 1) % st.size < k
    rw [hk']
    exact Nat.mod_lt _ hk

theorem shouldReplace_false (stor : Option Block) (cap need : Nat)
    (h : shouldReplace stor cap need = false) :
    (∃ b : Block, stor = some b) ∧ need ≤ cap := by
  cases stor with
  | none => simp [shouldReplace] at h
  | some b =>
    refine ⟨⟨b, rfl⟩, ?_⟩
    simp only [shouldReplace, Bool.or_eq_false_iff, Bool.and_eq_false_iff,
      decide_eq_false_iff_not, Option.isNone_some] at h
    exact Nat.le_of_not_lt h.1.2

theorem rd_tsprintf_inv (k : Nat) (st : rdstr_cyclic) (f : Option (List Char))
    (hk : 0 < k) (hInv : PoolInv k st) :
    PoolInv k (rd_tsprintf st k f).2 := by
  obtain ⟨hsz, hbl, hll, hi, hnx, hids⟩ := rdstr_cyclic_get_inv k st hk hInv
  have hkne : k ≠ 0 := Nat.pos_iff_ne_zero.mp hk
  match f with
  | none =>
    show PoolInv k (rdstr_cyclic_get st k)
    refine ⟨?_, ?_, ?_, fun _ => hsz, hi, hids⟩
    · rw [hbl, hsz]
    · rw [hll, hsz]
    · intro h; rw [hsz] at h; exact absurd h hkne
  | some s =>
    set cyc := rdstr_cyclic_get st k with hcyc
    simp only [rd_tsprintf, ← hcyc]
    by_cases hrep :
        shouldReplace (cyc.buf.getD cyc.i none) (cyc.len.getD cyc.i 0) (s.length + 1) = true
    · simp only [if_pos hrep]
      refine ⟨?_, ?_, ?_, fun _ => hsz, hi, ?_⟩
      · show (cyc.buf.set cyc.i _).length = cyc.size
        rw [List.length_set, hbl, hsz]
      · show (cyc.len.set cyc.i _).length = cyc.size
        rw [List.length_set, hll, hsz]
      · intro h
        rw [show ({ cyc with
              len := cyc.len.set cyc.i (s.length + 1),
              buf := cyc.buf.set cyc.i (some (cyc.next, s.take (s.length + 1 - 1))),
              next := cyc.next + 1 } : rdstr_cyclic).size = cyc.size from rfl, hsz] at h
        exact absurd h hkne
      · intro ob hob b hb
        show b.1 < cyc.next + 1
        rcases mem_of_mem_set _ _ _ _ hob with hmem | heq
        · exact Nat.lt_succ_of_lt (hids ob hmem b hb)
        · rw [heq] at hb
          have hb' : b = (cyc.next, s.take (s.length + 1 - 1)) := (Option.some.inj hb).symm
          rw [hb']
          exact Nat.lt_succ_self _
    · simp only [if_neg hrep]
      have hrep' :
          shouldReplace (cyc.buf.getD cyc.i none) (cyc.len.getD cyc.i 0) (s.length + 1)
            = false := by
        revert hrep
        cases shouldReplace (cyc.buf.getD cyc.i none) (cyc.len.getD cyc.i 0) (s.length + 1) <;>
          simp
      obtain ⟨⟨b0, hb0⟩, -⟩ := shouldReplace_false _ _ _ hrep'
      refine ⟨?_, ?_, ?_, fun _ => hsz, hi, ?_⟩
      · show (cyc.buf.set cyc.i _).length = cyc.size
        rw [List.length_set, hbl, hsz]
      · show cyc.len.length = cyc.size
        rw [hll, hsz]
      · intro h
        rw [show ({ cyc with
              buf := cyc.buf.set cyc.i
                (some (((cyc.buf.getD cyc.i none).getD (0, [])).1,
                  s.take (cyc.len.getD cyc.i 0 - 1))) } : rdstr_cyclic).size = cyc.size
          from rfl, hsz] at h
        exact absurd h hkne
      · intro ob hob b hb
        show b.1 < cyc.next
        have hin : cyc.i < cyc.buf.length := hbl ▸ hi
        rcases mem_of_mem_set _ _ _ _ hob with hmem | heq
        · exact hids ob hmem b hb
        · have hb0mem : some b0 ∈ cyc.buf := hb0 ▸ getD_mem _ _ _ hin
          have hb0id : b0.1 < cyc.next := hids _ hb0mem b0 rfl
          rw [heq, hb0] at hb
          rw [← Option.some.inj hb]
          exact hb0id

theorem rd_string_thread_cleanup_inv (k : Nat) (st : rdstr_cyclic)
    (hInv : PoolInv k st) : PoolInv k (rd_string_thread_cleanup st) := by
  obtain ⟨hbl, hll, h0, hsz, hi, hids⟩ := hInv
  by_cases h : st.size = 0
  · simpa [rd_string_thread_cleanup, h] using ⟨hbl, hll, h0, hsz, hi, hids⟩
  · simp only [rd_string_thread_cleanup, if_neg h]
    exact ⟨rfl, rfl, fun _ => ⟨rfl, rfl⟩, fun h' => absurd rfl h', hi,
      by intro ob hob; simp at hob⟩

theorem stepOp_inv (k : Nat) (st : rdstr_cyclic) (op : Op)
    (hk : 0 < k) (hInv : PoolInv k st) : PoolInv k (stepOp k st op) := by
  cases op with
  | render f => exact rd_tsprintf_inv k st f hk hInv
  | cleanup => exact rd_string_thread_cleanup_inv k st hInv

theorem runOps_inv (k : Nat) (ops : List Op) (st : rdstr_cyclic)
    (hk : 0 < k) (hInv : PoolInv k st) : PoolInv k (runOps k st ops) := by
  induction ops generalizing st with
  | nil => exact hInv
  | cons op ops ih => exact ih _ (stepOp_inv k st op hk hInv)

theorem reachable_inv (k : Nat) (st : rdstr_cyclic)
    (hk : 0 < k) (hst : Reachable k st) : PoolInv k st := by
  obtain ⟨ops, rfl⟩ := hst
  exact runOps_inv k ops _ hk (poolInv_init k hk)

/-! ### Rotation lemmas -/

theorem rd_tsprintf_size_cursor (st : rdstr_cyclic) (k : Nat) (f : Option (List Char)) :
    (rd_tsprintf st k f).2.size = (rdstr_cyclic_get st k).size ∧
    (rd_tsprintf st k f).2.i = (rdstr_cyclic_get st k).i := by
  cases f with
  | none => exact ⟨rfl, rfl⟩
  | some s =>
    simp only [rd_tsprintf]
    split <;> exact ⟨rfl, rfl⟩

theorem rdstr_cyclic_get_uninit (st : rdstr_cyclic) (k : Nat) (h : st.size = 0) :
    (rdstr_cyclic_get st k).size = k ∧ (rdstr_cyclic_get st k).i = st.i := by
  simp [rdstr_cyclic_get, h]

theorem rdstr_cyclic_get_init (st : rdstr_cyclic) (k : Nat) (h : st.size ≠ 0) :
    (rdstr_cyclic_get st k).size = st.size ∧
    (rdstr_cyclic_get st k).i = (st.i + 1) % st.size := by
  simp [rdstr_cyclic_get, h]

theorem runOps_renders_initialized (k : Nat) (fmts : List (Option (List Char)))
    (st : rdstr_cyclic) (hk : 0 < k) (hsz : st.size = k) (hi : st.i < k) :
    (runOps k st (fmts.map Op.render)).size = k ∧
    (runOps k st (fmts.map Op.render)).i = (st.i + fmts.length) % k := by
  induction fmts generalizing st with
  | nil => exact ⟨hsz, (Nat.mod_eq_of_lt hi).symm⟩
  | cons f fs ih =>
    have hne : st.size ≠ 0 := by rw [hsz]; exact Nat.pos_iff_ne_zero.mp hk
    obtain ⟨hasz, hai⟩ := rdstr_cyclic_get_init st k hne
    obtain ⟨hrsz, hri⟩ := rd_tsprintf_size_cursor st k f
    have hsz' : (rd_tsprintf st k f).2.size = k := by rw [hrsz, hasz, hsz]
    have hi' : (rd_tsprintf st k f).2.i = (st.i + 1) % k := by rw [hri, hai, hsz]
    have hi'lt : (rd_tsprintf st k f).2.i < k := by rw [hi']; exact Nat.mod_lt _ hk
    obtain ⟨ihsz, ihi⟩ := ih (rd_tsprintf st k f).2 hsz' hi'lt
    refine ⟨ihsz, ?_⟩
    show (runOps k (stepOp k st (Op.render f)) (fs.map Op.render)).i = _
    rw [show stepOp k st (Op.render f) = (rd_tsprintf st k f).2 from rfl, ihi, hi',
      Nat.mod_add_mod]
    have : st.i + 1 + fs.length = st.i + (f :: fs).length := by
      simp [List.length_cons]; omega
    rw [this]

theorem runOps_renders_fresh (k : Nat) (fmts : List (Option (List Char)))
    (hk : 0 < k) (hne : fmts ≠ []) :
    (runOps k rdstr_states_init (fmts.map Op.render)).size = k ∧
    (runOps k rdstr_states_init (fmts.map Op.render)).i = (fmts.length - 1) % k := by
  cases fmts with
  | nil => exact absurd rfl hne
  | cons f fs =>
    obtain ⟨hasz, hai⟩ := rdstr_cyclic_get_uninit rdstr_states_init k rfl
    obtain ⟨hrsz, hri⟩ := rd_tsprintf_size_cursor rdstr_states_init k f
    have hsz1 : (rd_tsprintf rdstr_states_init k f).2.size = k := by rw [hrsz, hasz]
    have hi1 : (rd_tsprintf rdstr_states_init k f).2.i = 0 := by
      rw [hri, hai]; rfl
    obtain ⟨ihsz, ihi⟩ := runOps_renders_initialized k fs
      (rd_tsprintf rdstr_states_init k f).2 hk hsz1 (hi1 ▸ hk)
    refine ⟨ihsz, ?_⟩
    show (runOps k (stepOp k rdstr_states_init (Op.render f)) (fs.map Op.render)).i = _
    rw [show stepOp k rdstr_states_init (Op.render f) = (rd_tsprintf rdstr_states_init k f).2
      from rfl, ihi, hi1]
    simp [List.length_cons]

theorem slotOfCall_eq (k : Nat) (fmts : List (Option (List Char))) (i : Nat)
    (hk : 0 < k) (hi : 1 ≤ i) (hlen : i - 1 ≤ fmts.length) :
    slotOfCall k fmts i = (i - 1) % k := by
  rcases Nat.lt_or_ge i 2 with h2 | h2
  · have hi1 : i = 1 := by omega
    subst hi1
    show targetSlot (runOps k rdstr_states_init ((fmts.take 0).map Op.render)) k = 0 % k
    rw [List.take_zero]
    show (rdstr_cyclic_get rdstr_states_init k).i = 0 % k
    rw [(rdstr_cyclic_get_uninit rdstr_states_init k rfl).2]
    simp [rdstr_states_init, Nat.zero_mod]
  · have hlt : (fmts.take (i - 1)).length = i - 1 := by
      rw [List.length_take]
      omega
    have hne : fmts.take (i - 1) ≠ [] := by
      intro h
      rw [h] at hlt
      simp at hlt
      omega
    obtain ⟨hsz, hicur⟩ := runOps_renders_fresh k (fmts.take (i - 1)) hk hne
    have hszne : (runOps k rdstr_states_init ((fmts.take (i - 1)).map Op.render)).size ≠ 0 := by
      rw [hsz]; exact Nat.pos_iff_ne_zero.mp hk
    show (rdstr_cyclic_get (runOps k rdstr_states_init ((fmts.take (i - 1)).map Op.render)) k).i
      = (i - 1) % k
    rw [(rdstr_cyclic_get_init _ k hszne).2, hsz, hicur, hlt, Nat.mod_add_mod]
    have : i - 1 - 1 + 1 = i - 1 := by omega
    rw [this]

/-- Helper: a failing render is exactly the slot acquisition. -/
theorem rd_tsprintf_none_eq (st : rdstr_cyclic) (k : Nat) :
    rd_tsprintf st k none = (none, rdstr_cyclic_get st k) := rfl

/-- Helper: the full state produced by an initializing acquisition. -/
theorem rdstr_cyclic_get_eq_uninit (st : rdstr_cyclic) (k : Nat) (h : st.size = 0) :
    rdstr_cyclic_get st k =
      { st with size := k, buf := List.replicate k none, len := List.replicate k 0 } := by
  simp [rdstr_cyclic_get, h]

/-- Helper: the full state produced by an advancing acquisition. -/
theorem rdstr_cyclic_get_eq_init (st : rdstr_cyclic) (k : Nat) (h : st.size ≠ 0) :
    rdstr_cyclic_get st k = { st with i := (st.i + 1) % st.size } := by
  simp [rdstr_cyclic_get, h]

/-! ### Claim theorems -/

/-- C3 (counterexample): after three renders and a teardown on a 3-slot
pool, the pool is uninitialized (`size = 0`) but the stale cursor value 2
survives; the re-initializing `rdstr_cyclic_get` call allocates the slots
and sets `size = 3` yet leaves the cursor at 2 instead of setting it to 0,
contradicting the claim that initialization sets the cursor to 0. -/
theorem rdstr_cyclic_get_cursor_counterexample :
    (runOps 3 rdstr_states_init opsC3).size = 0 ∧
    (rdstr_cyclic_get (runOps 3 rdstr_states_init opsC3) 3).size = 3 ∧
    (rdstr_cyclic_get (runOps 3 rdstr_states_init opsC3) 3).i = 2 ∧
    ¬ (rdstr_cyclic_get (runOps 3 rdstr_states_init opsC3) 3).i = 0 := by decide

/-- C3 (amended): a `rdstr_cyclic_get` call on an uninitialized pool
(`size = 0`) allocates `size` empty slot entries (storage absent, capacity
0), sets the slot count, and leaves the cursor unchanged — it is 0 only
because a fresh thread's zero-initialized state has cursor 0; a call on an
initialized pool ignores the requested count and advances the cursor to
`(cursor + 1) mod size`. -/
theorem rdstr_cyclic_get_behavior (st : rdstr_cyclic) (k : Nat) :
    (st.size = 0 → rdstr_cyclic_get st k =
      { st with size := k, buf := List.replicate k none, len := List.replicate k 0 }) ∧
    (0 < st.size → rdstr_cyclic_get st k = { st with i := (st.i + 1) % st.size }) ∧
    (rdstr_cyclic_get rdstr_states_init k).i = 0 := by
  exact ⟨rdstr_cyclic_get_eq_uninit st k,
    fun h => rdstr_cyclic_get_eq_init st k (Nat.pos_iff_ne_zero.mp h), rfl⟩

/-- C3 (witness for the amended claim), applying it to the uninitialized
3-cursor pool and to a 2-slot pool. -/
theorem rdstr_cyclic_get_behavior_witness :
    rdstr_cyclic_get (runOps 3 rdstr_states_init opsC3) 3 =
      { runOps 3 rdstr_states_init opsC3 with
          size := 3, buf := List.replicate 3 none, len := List.replicate 3 0 } ∧
    rdstr_cyclic_get stTwo 2 = { stTwo with i := (stTwo.i + 1) % stTwo.size } := by
  exact ⟨(rdstr_cyclic_get_behavior (runOps 3 rdstr_states_init opsC3) 3).1 (by decide),
    (rdstr_cyclic_get_behavior stTwo 2).2.1 (by decide)⟩

/-- C4 (counterexample): a render call whose dry-run measurement fails does
mutate the pool: on an initialized 2-slot pool it advances the cursor, so
the pool state after the call differs from the state before it. -/
theorem rd_tsprintf_failure_mutates :
    (rd_tsprintf stTwo 2 none).1 = none ∧ ¬ (rd_tsprintf stTwo 2 none).2 = stTwo := by
  decide

/-- C4 (amended): a render call whose dry-run measurement fails returns
failure and leaves the pool exactly as the slot acquisition left it: the
targeted slot's storage and capacity are untouched, but the acquisition's
lazy initialization or cursor advance does happen and is not undone. -/
theorem rd_tsprintf_failure_state (st : rdstr_cyclic) (k : Nat) :
    rd_tsprintf st k none = (none, rdstr_cyclic_get st k) := rfl

/-- C5: a render call whose dry-run measurement fails returns the failure
indicator (NULL) and the targeted slot's storage and capacity are unchanged
from before the call. -/
theorem rd_tsprintf_failure_slot_unchanged (st : rdstr_cyclic) (k : Nat)
    (h0 : st.size = 0 → st.buf = [] ∧ st.len = []) :
    (rd_tsprintf st k none).1 = none ∧
    storageAt (rd_tsprintf st k none).2 (targetSlot st k) = storageAt st (targetSlot st k) ∧
    capacityAt (rd_tsprintf st k none).2 (targetSlot st k) = capacityAt st (targetSlot st k) := by
  rw [rd_tsprintf_none_eq]
  by_cases h : st.size = 0
  · obtain ⟨hb, hl⟩ := h0 h
    have hacq := rdstr_cyclic_get_eq_uninit st k h
    refine ⟨rfl, ?_, ?_⟩
    · show storageAt (rdstr_cyclic_get st k) _ = _
      rw [hacq]
      show (List.replicate k none).getD _ none = st.buf.getD _ none
      rw [getD_replicate_default, hb]
      rfl
    · show capacityAt (rdstr_cyclic_get st k) _ = _
      rw [hacq]
      show (List.replicate k 0).getD _ 0 = st.len.getD _ 0
      rw [getD_replicate_default, hl]
      rfl
  · have hacq := rdstr_cyclic_get_eq_init st k h
    refine ⟨rfl, ?_, ?_⟩
    · show storageAt (rdstr_cyclic_get st k) _ = _
      rw [hacq]
      rfl
    · show capacityAt (rdstr_cyclic_get st k) _ = _
      rw [hacq]
      rfl

/-- C5 (witness): applied to the initialized 2-slot pool `stTwo`. -/
theorem rd_tsprintf_failure_slot_unchanged_witness :
    (rd_tsprintf stTwo 2 none).1 = none ∧
    storageAt (rd_tsprintf stTwo 2 none).2 (targetSlot stTwo 2) =
      storageAt stTwo (targetSlot stTwo 2) ∧
    capacityAt (rd_tsprintf stTwo 2 none).2 (targetSlot stTwo 2) =
      capacityAt stTwo (targetSlot stTwo 2) :=
  rd_tsprintf_failure_slot_unchanged stTwo 2 (by decide)

/-- C10: a render call whose dry-run measurement fails returns failure, yet
the slot acquisition performed before the measurement persists: on an
uninitialized pool the call initializes it (`size` becomes the configured
count, all slots empty), and on an initialized pool it advances the cursor
by one modulo the slot count. -/
theorem rd_tsprintf_failure_acquires (st : rdstr_cyclic) (k : Nat) :
    (rd_tsprintf st k none).1 = none ∧
    (st.size = 0 → (rd_tsprintf st k none).2 =
      { st with size := k, buf := List.replicate k none, len := List.replicate k 0 }) ∧
    (0 < st.size → (rd_tsprintf st k none).2 = { st with i := (st.i + 1) % st.size }) := by
  rw [rd_tsprintf_none_eq]
  exact ⟨rfl, rdstr_cyclic_get_eq_uninit st k,
    fun h => rdstr_cyclic_get_eq_init st k (Nat.pos_iff_ne_zero.mp h)⟩

/-- C10 (witness): applied to the fresh pool (initialization persists) and
to the initialized pool `stTwo` (cursor advance persists). -/
theorem rd_tsprintf_failure_acquires_witness :
    (rd_tsprintf rdstr_states_init 2 none).2 =
      { rdstr_states_init with
          size := 2, buf := List.replicate 2 none, len := List.replicate 2 0 } ∧
    (rd_tsprintf stTwo 2 none).2 = { stTwo with i := (stTwo.i + 1) % stTwo.size } :=
  ⟨(rd_tsprintf_failure_acquires rdstr_states_init 2).2.1 rfl,
   (rd_tsprintf_failure_acquires stTwo 2).2.2 (by decide)⟩

/-- C1: for a successful render call (needed length = measured length + 1),
the targeted slot's storage is replaced exactly when `shouldReplace` holds
(storage absent, or capacity < needed, or capacity > needed*4 and > 64):
when it holds, the slot afterwards carries a freshly allocated block whose
identifier differs from the old storage's and whose capacity is exactly the
needed length; when it does not hold, the slot's capacity and its storage
block (same allocation identifier) are unchanged. -/
theorem rd_tsprintf_replace_characterization (k : Nat) (st : rdstr_cyclic) (s : List Char)
    (hk : 0 < k) (hInv : PoolInv k st) :
    (shouldReplace (storageAt (rdstr_cyclic_get st k) (targetSlot st k))
        (capacityAt (rdstr_cyclic_get st k) (targetSlot st k)) (s.length + 1) = true →
      capacityAt (rd_tsprintf st k (some s)).2 (targetSlot st k) = s.length + 1 ∧
      storageAt (rd_tsprintf st k (some s)).2 (targetSlot st k) =
        some ((rdstr_cyclic_get st k).next, s) ∧
      (∀ b : Block, storageAt (rdstr_cyclic_get st k) (targetSlot st k) = some b →
        b.1 ≠ (rdstr_cyclic_get st k).next)) ∧
    (shouldReplace (storageAt (rdstr_cyclic_get st k) (targetSlot st k))
        (capacityAt (rdstr_cyclic_get st k) (targetSlot st k)) (s.length + 1) = false →
      capacityAt (rd_tsprintf st k (some s)).2 (targetSlot st k) =
        capacityAt (rdstr_cyclic_get st k) (targetSlot st k) ∧
      Option.map Prod.fst (storageAt (rd_tsprintf st k (some s)).2 (targetSlot st k)) =
        Option.map Prod.fst (storageAt (rdstr_cyclic_get st k) (targetSlot st k))) := by
  obtain ⟨hsz, hbl, hll, hi, hnx, hids⟩ := rdstr_cyclic_get_inv k st hk hInv
  have hbin : (rdstr_cyclic_get st k).i < (rdstr_cyclic_get st k).buf.length := by
    rw [hbl]; exact hi
  have hlin : (rdstr_cyclic_get st k).i < (rdstr_cyclic_get st k).len.length := by
    rw [hll]; exact hi
  have htake : s.take (s.length + 1 - 1) = s := by simp
  constructor
  · intro hrep
    have hrep' : shouldReplace
        ((rdstr_cyclic_get st k).buf.getD (rdstr_cyclic_get st k).i none)
        ((rdstr_cyclic_get st k).len.getD (rdstr_cyclic_get st k).i 0) (s.length + 1)
        = true := hrep
    simp only [rd_tsprintf, if_pos hrep']
    refine ⟨?_, ?_, ?_⟩
    · show ((rdstr_cyclic_get st k).len.set (rdstr_cyclic_get st k).i
        (s.length + 1)).getD (rdstr_cyclic_get st k).i 0 = s.length + 1
      exact getD_set_self _ _ _ _ hlin
    · show ((rdstr_cyclic_get st k).buf.set (rdstr_cyclic_get st k).i
        (some ((rdstr_cyclic_get st k).next, s.take (s.length + 1 - 1)))).getD
          (rdstr_cyclic_get st k).i none = _
      rw [getD_set_self _ _ _ _ hbin, htake]
    · intro b hb
      have hmem : some b ∈ (rdstr_cyclic_get st k).buf := hb ▸ getD_mem _ _ _ hbin
      exact Nat.ne_of_lt (hids _ hmem b rfl)
  · intro hrep
    have hrep' : shouldReplace
        ((rdstr_cyclic_get st k).buf.getD (rdstr_cyclic_get st k).i none)
        ((rdstr_cyclic_get st k).len.getD (rdstr_cyclic_get st k).i 0) (s.length + 1)
        = false := hrep
    obtain ⟨⟨b0, hb0⟩, hcap⟩ := shouldReplace_false _ _ _ hrep'
    simp only [rd_tsprintf, if_neg (by rw [hrep']; simp : ¬ shouldReplace
      ((rdstr_cyclic_get st k).buf.getD (rdstr_cyclic_get st k).i none)
      ((rdstr_cyclic_get st k).len.getD (rdstr_cyclic_get st k).i 0) (s.length + 1) = true)]
    refine ⟨rfl, ?_⟩
    show Option.map Prod.fst (((rdstr_cyclic_get st k).buf.set (rdstr_cyclic_get st k).i
      (some ((((rdstr_cyclic_get st k).buf.getD (rdstr_cyclic_get st k).i none).getD (0, [])).1,
        s.take ((rdstr_cyclic_get st k).len.getD (rdstr_cyclic_get st k).i 0 - 1)))).getD
          (rdstr_cyclic_get st k).i none) = _
    rw [getD_set_self _ _ _ _ hbin, hb0]
    have hstor : storageAt (rdstr_cyclic_get st k) (targetSlot st k) = some b0 := hb0
    rw [hstor]
    rfl

/-- C1 (witness): the first render of a fresh 1-slot pool has absent
storage, so it is replaced and capacity becomes exactly 2. -/
theorem rd_tsprintf_replace_characterization_witness :
    capacityAt (rd_tsprintf rdstr_states_init 1 (some ['a'])).2
      (targetSlot rdstr_states_init 1) = 2 ∧
    storageAt (rd_tsprintf rdstr_states_init 1 (some ['a'])).2
      (targetSlot rdstr_states_init 1) =
      some ((rdstr_cyclic_get rdstr_states_init 1).next, ['a']) := by
  have h := (rd_tsprintf_replace_characterization 1 rdstr_states_init ['a'] (by decide)
    (poolInv_init 1 (by decide))).1 (by decide)
  exact ⟨h.1, h.2.1⟩

/-- C7: every successful render returns the fully rendered string, and its
length (excluding the terminator) is strictly below the targeted slot's
recorded capacity after the call — equivalently that capacity is at least
the rendered length including the terminator. -/
theorem rd_tsprintf_capacity_sufficient (k : Nat) (st : rdstr_cyclic) (s : List Char)
    (hk : 0 < k) (hInv : PoolInv k st) :
    ∃ blk : Block, (rd_tsprintf st k (some s)).1 = some blk ∧ blk.2 = s ∧
      blk.2.length < capacityAt (rd_tsprintf st k (some s)).2 (targetSlot st k) ∧
      s.length + 1 ≤ capacityAt (rd_tsprintf st k (some s)).2 (targetSlot st k) := by
  obtain ⟨hsz, hbl, hll, hi, hnx, hids⟩ := rdstr_cyclic_get_inv k st hk hInv
  have hbin : (rdstr_cyclic_get st k).i < (rdstr_cyclic_get st k).buf.length := by
    rw [hbl]; exact hi
  have hlin : (rdstr_cyclic_get st k).i < (rdstr_cyclic_get st k).len.length := by
    rw [hll]; exact hi
  have htake : s.take (s.length + 1 - 1) = s := by simp
  by_cases hrep : shouldReplace
      ((rdstr_cyclic_get st k).buf.getD (rdstr_cyclic_get st k).i none)
      ((rdstr_cyclic_get st k).len.getD (rdstr_cyclic_get st k).i 0) (s.length + 1) = true
  · refine ⟨((rdstr_cyclic_get st k).next, s.take (s.length + 1 - 1)), ?_, htake, ?_, ?_⟩
    · simp only [rd_tsprintf, if_pos hrep]
    · show _ < capacityAt _ _
      have hcap : capacityAt (rd_tsprintf st k (some s)).2 (targetSlot st k)
          = s.length + 1 := by
        simp only [rd_tsprintf, if_pos hrep]
        exact getD_set_self _ _ _ _ hlin
      rw [hcap]
      show (s.take (s.length + 1 - 1)).length < s.length + 1
      rw [htake]
      omega
    · have hcap : capacityAt (rd_tsprintf st k (some s)).2 (targetSlot st k)
          = s.length + 1 := by
        simp only [rd_tsprintf, if_pos hrep]
        exact getD_set_self _ _ _ _ hlin
      omega
  · have hrep' : shouldReplace
        ((rdstr_cyclic_get st k).buf.getD (rdstr_cyclic_get st k).i none)
        ((rdstr_cyclic_get st k).len.getD (rdstr_cyclic_get st k).i 0) (s.length + 1)
        = false := by
      revert hrep
      cases shouldReplace ((rdstr_cyclic_get st k).buf.getD (rdstr_cyclic_get st k).i none)
        ((rdstr_cyclic_get st k).len.getD (rdstr_cyclic_get st k).i 0) (s.length + 1) <;> simp
    obtain ⟨⟨b0, hb0⟩, hcapge⟩ := shouldReplace_false _ _ _ hrep'
    have htake' : s.take ((rdstr_cyclic_get st k).len.getD (rdstr_cyclic_get st k).i 0 - 1)
        = s := take_of_length_le' _ _ (by omega)
    refine ⟨((((rdstr_cyclic_get st k).buf.getD (rdstr_cyclic_get st k).i none).getD (0, [])).1,
      s.take ((rdstr_cyclic_get st k).len.getD (rdstr_cyclic_get st k).i 0 - 1)), ?_, htake', ?_, ?_⟩
    · simp only [rd_tsprintf, if_neg (by rw [hrep']; simp : ¬ shouldReplace
        ((rdstr_cyclic_get st k).buf.getD (rdstr_cyclic_get st k).i none)
        ((rdstr_cyclic_get st k).len.getD (rdstr_cyclic_get st k).i 0) (s.length + 1) = true)]
    · have hcap : capacityAt (rd_tsprintf st k (some s)).2 (targetSlot st k)
          = (rdstr_cyclic_get st k).len.getD (rdstr_cyclic_get st k).i 0 := by
        simp only [rd_tsprintf, if_neg (by rw [hrep']; simp : ¬ shouldReplace
          ((rdstr_cyclic_get st k).buf.getD (rdstr_cyclic_get st k).i none)
          ((rdstr_cyclic_get st k).len.getD (rdstr_cyclic_get st k).i 0) (s.length + 1) = true)]
        rfl
      rw [hcap, htake']
      show s.length < (rdstr_cyclic_get st k).len.getD (rdstr_cyclic_get st k).i 0
      omega
    · have hcap : capacityAt (rd_tsprintf st k (some s)).2 (targetSlot st k)
          = (rdstr_cyclic_get st k).len.getD (rdstr_cyclic_get st k).i 0 := by
        simp only [rd_tsprintf, if_neg (by rw [hrep']; simp : ¬ shouldReplace
          ((rdstr_cyclic_get st k).buf.getD (rdstr_cyclic_get st k).i none)
          ((rdstr_cyclic_get st k).len.getD (rdstr_cyclic_get st k).i 0) (s.length + 1) = true)]
        rfl
      omega

/-- C7 (witness): the first render of a fresh 1-slot pool. -/
theorem rd_tsprintf_capacity_sufficient_witness :
    ∃ blk : Block, (rd_tsprintf rdstr_states_init 1 (some ['a'])).1 = some blk ∧
      blk.2 = ['a'] ∧
      blk.2.length < capacityAt (rd_tsprintf rdstr_states_init 1 (some ['a'])).2
        (targetSlot rdstr_states_init 1) ∧
      (['a'] : List Char).length + 1 ≤ capacityAt (rd_tsprintf rdstr_states_init 1
        (some ['a'])).2 (targetSlot rdstr_states_init 1) :=
  rd_tsprintf_capacity_sufficient 1 rdstr_states_init ['a'] (by decide)
    (poolInv_init 1 (by decide))

/-- Helper: a successful render on an uninitialized pool takes the replace
branch (the acquired slot's storage is absent) and initializes the pool. -/
theorem rd_tsprintf_from_uninit (st : rdstr_cyclic) (k : Nat) (s : List Char)
    (h : st.size = 0) :
    (rd_tsprintf st k (some s)).1 = some (st.next, s) ∧
    (rd_tsprintf st k (some s)).2.size = k := by
  have hacq := rdstr_cyclic_get_eq_uninit st k h
  have hstor : (rdstr_cyclic_get st k).buf.getD (rdstr_cyclic_get st k).i none = none := by
    rw [hacq]
    exact getD_replicate_default _ _ _
  have hrep : shouldReplace ((rdstr_cyclic_get st k).buf.getD (rdstr_cyclic_get st k).i none)
      ((rdstr_cyclic_get st k).len.getD (rdstr_cyclic_get st k).i 0) (s.length + 1)
      = true := by
    rw [hstor]
    rfl
  have htake : s.take (s.length + 1 - 1) = s := by simp
  constructor
  · simp only [rd_tsprintf, if_pos hrep]
    rw [htake, hacq]
  · simp only [rd_tsprintf, if_pos hrep]
    show (rdstr_cyclic_get st k).size = k
    rw [hacq]

/-- C6: teardown on an uninitialized pool is a no-op; on an initialized pool
it drops every slot's storage together with the slot collection and resets
`size` to 0; afterwards the slot count is 0 and the next render
reinitializes the pool with the configured slot count `k` and returns the
same rendered content as the very first render of a fresh thread. -/
theorem rd_string_thread_cleanup_reset (st : rdstr_cyclic) (k : Nat) (s : List Char) :
    (st.size = 0 → rd_string_thread_cleanup st = st) ∧
    (0 < st.size → rd_string_thread_cleanup st =
      { st with size := 0, buf := [], len := [] }) ∧
    (rd_string_thread_cleanup st).size = 0 ∧
    (rd_tsprintf (rd_string_thread_cleanup st) k (some s)).2.size = k ∧
    (rd_tsprintf (rd_string_thread_cleanup st) k (some s)).1 =
      some ((rd_string_thread_cleanup st).next, s) ∧
    Option.map Prod.snd ((rd_tsprintf (rd_string_thread_cleanup st) k (some s)).1) =
      Option.map Prod.snd ((rd_tsprintf rdstr_states_init k (some s)).1) := by
  have hc0 : (rd_string_thread_cleanup st).size = 0 := by
    unfold rd_string_thread_cleanup
    split <;> simp_all
  obtain ⟨hfst, hsz⟩ := rd_tsprintf_from_uninit (rd_string_thread_cleanup st) k s hc0
  obtain ⟨hfst0, -⟩ := rd_tsprintf_from_uninit rdstr_states_init k s rfl
  refine ⟨fun h => by simp [rd_string_thread_cleanup, h], fun h => ?_, hc0, hsz, hfst, ?_⟩
  · simp [rd_string_thread_cleanup, Nat.pos_iff_ne_zero.mp h]
  · rw [hfst, hfst0]
    rfl

set_option maxRecDepth 100000 in
/-- C6 (witness): tearing down the 1-slot pool holding the 500-byte buffer
releases it, and the next render matches a fresh thread's output. -/
theorem rd_string_thread_cleanup_reset_witness :
    rd_string_thread_cleanup st500 = { st500 with size := 0, buf := [], len := [] } ∧
    (rd_tsprintf (rd_string_thread_cleanup st500) 1 (some s10)).2.size = 1 ∧
    Option.map Prod.snd ((rd_tsprintf (rd_string_thread_cleanup st500) 1 (some s10)).1) =
      Option.map Prod.snd ((rd_tsprintf rdstr_states_init 1 (some s10)).1) := by
  have h := rd_string_thread_cleanup_reset st500 1 s10
  exact ⟨h.2.1 (by decide), h.2.2.2.1, h.2.2.2.2.2⟩

/-- C8: in every reachable state of a `k`-slot pool, the pool is
uninitialized exactly when the slot collection is empty; an initialized
pool has exactly the configured `k` slots (so the count never changes until
teardown), a later acquisition with any requested count `m` leaves the slot
count unchanged, and the cursor is always inside `[0, size)` while the pool
is initialized. -/
theorem pool_structural_invariants (k : Nat) (ops : List Op) (hk : 0 < k) :
    ((runOps k rdstr_states_init ops).size = 0 ↔ (runOps k rdstr_states_init ops).buf = []) ∧
    ((runOps k rdstr_states_init ops).size ≠ 0 → (runOps k rdstr_states_init ops).size = k) ∧
    (∀ m : Nat, 0 < (runOps k rdstr_states_init ops).size →
      (rdstr_cyclic_get (runOps k rdstr_states_init ops) m).size =
        (runOps k rdstr_states_init ops).size) ∧
    (0 < (runOps k rdstr_states_init ops).size →
      (runOps k rdstr_states_init ops).i < (runOps k rdstr_states_init ops).size) := by
  obtain ⟨hbl, hll, h0, hszk, hi, -⟩ := runOps_inv k ops rdstr_states_init hk (poolInv_init k hk)
  refine ⟨⟨fun h => (h0 h).1, fun h => ?_⟩, hszk, fun m h => ?_, fun h => ?_⟩
  · rw [← hbl, h]
    rfl
  · rw [rdstr_cyclic_get_eq_init _ m (Nat.pos_iff_ne_zero.mp h)]
  · rw [hszk (Nat.pos_iff_ne_zero.mp h)]
    exact hi

/-- C8 (witness): a 2-slot pool after one render. -/
theorem pool_structural_invariants_witness :
    ((runOps 2 rdstr_states_init [Op.render (some ['a'])]).size ≠ 0 →
      (runOps 2 rdstr_states_init [Op.render (some ['a'])]).size = 2) ∧
    (runOps 2 rdstr_states_init [Op.render (some ['a'])]).i <
      (runOps 2 rdstr_states_init [Op.render (some ['a'])]).size := by
  have h := pool_structural_invariants 2 [Op.render (some ['a'])] (by decide)
  exact ⟨h.2.1, h.2.2.2 (by decide)⟩

/-- C2: on a fresh thread with `BUFCNT = k ≥ 1`, the `i`-th render call
(1-indexed) uses slot `(i-1) mod k`, calls `i` and `i+k` use the same slot,
and any two distinct calls among `i, …, i+k-1` use distinct slots. -/
theorem rd_tsprintf_rotation (k i : Nat) (fmts : List (Option (List Char)))
    (hk : 1 ≤ k) (hi : 1 ≤ i) (hlen : i + k - 1 ≤ fmts.length) :
    slotOfCall k fmts i = (i - 1) % k ∧
    slotOfCall k fmts (i + k) = slotOfCall k fmts i ∧
    (∀ a b : Nat, i ≤ a → a < b → b < i + k →
      slotOfCall k fmts a ≠ slotOfCall k fmts b) := by
  have h1 : slotOfCall k fmts i = (i - 1) % k :=
    slotOfCall_eq k fmts i hk hi (by omega)
  have h2 : slotOfCall k fmts (i + k) = (i + k - 1) % k :=
    slotOfCall_eq k fmts (i + k) hk (by omega) (by omega)
  refine ⟨h1, ?_, ?_⟩
  · rw [h1, h2, show i + k - 1 = (i - 1) + k by omega, Nat.add_mod_right]
  · intro a b ha hab hb hEq
    have hA : slotOfCall k fmts a = (a - 1) % k :=
      slotOfCall_eq k fmts a hk (by omega) (by omega)
    have hB : slotOfCall k fmts b = (b - 1) % k :=
      slotOfCall_eq k fmts b hk (by omega) (by omega)
    rw [hA, hB] at hEq
    have hdvd : k ∣ (b - 1) - (a - 1) := (Nat.modEq_iff_dvd' (by omega)).mp hEq
    have hle := Nat.le_of_dvd (by omega) hdvd
    omega

/-- C2 (witness): with two slots and three renders, calls 1 and 3 share
slot 0 and calls 1 and 2 use distinct slots. -/
theorem rd_tsprintf_rotation_witness :
    slotOfCall 2 [some ['a'], some ['b'], some ['c']] 1 = 0 ∧
    slotOfCall 2 [some ['a'], some ['b'], some ['c']] 3 =
      slotOfCall 2 [some ['a'], some ['b'], some ['c']] 1 ∧
    slotOfCall 2 [some ['a'], some ['b'], some ['c']] 1 ≠
      slotOfCall 2 [some ['a'], some ['b'], some ['c']] 2 := by
  have h := rd_tsprintf_rotation 2 1 [some ['a'], some ['b'], some ['c']]
    (by decide) (by decide) (by decide)
  exact ⟨h.1, h.2.1, h.2.2 1 2 (by decide) (by decide) (by decide)⟩

set_option maxRecDepth 1000000 in
/-- C9: rendering a 500-byte string into the slot gives capacity 501; the
next 10-byte render needs 11 bytes, and since 501 > 11*4 and 501 > 64 the
shrink-replace fires on that very render, leaving capacity exactly 11
(which is still ≥ 11); once capacity is 11, a further 10-byte render
triggers no replacement: the capacity and the storage block are unchanged. -/
theorem shrink_hysteresis_scenario :
    capacityAt st500 0 = 501 ∧
    shouldReplace (storageAt st500 0) (capacityAt st500 0) 11 = true ∧
    capacityAt st10a 0 = 11 ∧
    11 ≤ capacityAt st10a 0 ∧
    shouldReplace (storageAt st10a 0) (capacityAt st10a 0) 11 = false ∧
    capacityAt st10b 0 = 11 ∧
    Option.map Prod.fst (storageAt st10b 0) = Option.map Prod.fst (storageAt st10a 0) := by
  decide
